import Mathlib

set_option linter.unusedVariables false

/-!
Verification of the PNG decoding pipeline in `PNGReader/src/test2.py`
against its natural-language specification.

Bytes are modelled as `Nat` values (the Python `bytes` type guarantees
values below 256; arithmetic that wraps in the source is written with an
explicit `% 256`, matching the `& 0xFF` masks).  Byte strings are
`List Nat`.  Python code that can raise an exception (out-of-range
indexing, `decode` failure, `struct` errors) is modelled with `Option`,
`none` standing for the raised exception / the `None` sentinel that
`read_png` returns from its `except` handlers.
-/

/-- Embedding of `paeth_predictor` (test2.py lines 154-166).
`p = a + b - c` is computed over the integers; the three absolute
differences are compared and one of `a`, `b`, `c` is returned with the
same branch structure as the source. -/
def paeth_predictor (a b c : Nat) : Nat :=
  let p : Int := (a : Int) + (b : Int) - (c : Int)
  let pa := (p - (a : Int)).natAbs
  let pb := (p - (b : Int)).natAbs
  let pc := (p - (c : Int)).natAbs
  if pa ≤ pb ∧ pa ≤ pc then a
  else if pb ≤ pc then b
  else c

/-- Loop body of `apply_sub_filter` (test2.py lines 112-118): positions
below `bytes_per_pixel = 3` are copied unchanged, later positions add the
already-reconstructed byte three places to the left, masked to a byte.
`acc` is the mutated prefix of `filtered_scanline`; the current index is
`acc.length`. -/
def subGo (acc : List Nat) : List Nat → List Nat
  | [] => acc
  | x :: rest =>
    let i := acc.length
    if 3 ≤ i then subGo (acc ++ [(x + acc.getD (i - 3) 0) % 256]) rest
    else subGo (acc ++ [x]) rest

/-- Embedding of `apply_sub_filter` (test2.py lines 112-118). -/
def apply_sub_filter (scanline_data : List Nat) (width : Nat) : List Nat :=
  subGo [] scanline_data

/-- Loop body of `apply_up_filter`: each byte adds the byte at the same
index of the previous (raw) scanline.  Indexing past the end of the
previous scanline raises in Python, modelled as `none`. -/
def upGo : List Nat → List Nat → Option (List Nat)
  | [], _ => some []
  | _ :: _, [] => none
  | x :: rest, q :: qs => (upGo rest qs).map (fun t => (x + q) % 256 :: t)

/-- Embedding of `apply_up_filter` (test2.py lines 120-132): with no
previous scanline (`None`) the scanline is returned unchanged. -/
def apply_up_filter (scanline_data : List Nat) (width : Nat)
    (previous_scanline_data : Option (List Nat)) : Option (List Nat) :=
  match previous_scanline_data with
  | none => some scanline_data
  | some p => upGo scanline_data p

/-- Python truthiness of the `previous_scanline_data` argument:
`None` and the empty byte string are falsy. -/
def prevTruthy : Option (List Nat) → Bool
  | none => false
  | some [] => false
  | some (_ :: _) => true

/-- Loop body of `apply_average_filter` (test2.py lines 134-152): `a` is
the reconstructed byte `bpp` places to the left (0 at the row start), `b`
the byte above taken from the raw previous scanline when that argument is
truthy (0 otherwise); the stored byte is `(x + (a+b)/2) % 256`. -/
def avgGo (bpp : Nat) (p : Option (List Nat)) (acc : List Nat) :
    List Nat → Option (List Nat)
  | [] => some acc
  | x :: rest =>
    let i := acc.length
    let a := if bpp ≤ i then acc.getD (i - bpp) 0 else 0
    match (if prevTruthy p then (p.getD [])[i]? else some 0) with
    | none => none
    | some b => avgGo bpp p (acc ++ [(x + (a + b) / 2) % 256]) rest

/-- Embedding of `apply_average_filter` (test2.py lines 134-152). -/
def apply_average_filter (scanline_data : List Nat) (width : Nat)
    (previous_scanline_data : Option (List Nat)) (bytes_per_pixel : Nat) :
    Option (List Nat) :=
  avgGo bytes_per_pixel previous_scanline_data [] scanline_data

/-- Loop body of `apply_paeth_filter` (test2.py lines 168-193): `a` and
`c` fall back to 0 for the leftmost `bpp` positions, `b` and `c` to 0
when the previous-scanline argument is falsy; otherwise `b` and `c` are
read from the raw previous scanline (`b` first, as in the source). -/
def paethGo (bpp : Nat) (p : Option (List Nat)) (acc : List Nat) :
    List Nat → Option (List Nat)
  | [] => some acc
  | x :: rest =>
    let i := acc.length
    let a := if bpp ≤ i then acc.getD (i - bpp) 0 else 0
    match (if prevTruthy p then (p.getD [])[i]? else some 0) with
    | none => none
    | some b =>
      match (if prevTruthy p ∧ bpp ≤ i then (p.getD [])[i - bpp]? else some 0) with
      | none => none
      | some c => paethGo bpp p (acc ++ [(x + paeth_predictor a b c) % 256]) rest

/-- Embedding of `apply_paeth_filter` (test2.py lines 168-193). -/
def apply_paeth_filter (scanline_data : List Nat) (width : Nat)
    (previous_scanline_data : Option (List Nat)) (bytes_per_pixel : Nat) :
    Option (List Nat) :=
  paethGo bytes_per_pixel previous_scanline_data [] scanline_data

/-- Row loop of `apply_filters_to_data` (test2.py lines 195-225).
`row` is the current row index, `acc` the `unfiltered_data` accumulator,
`prev` the `previous_scanline` variable, and the final argument counts
the remaining rows.  The filter-type byte is fetched with `[..]?`
(Python raises `IndexError` past the end: `none`); the scanline is the
clamping slice `pixel_data[row*sl+1 : (row+1)*sl]`.  Note that every
filter branch stores the RAW scanline, not the reconstructed one, in
`previous_scanline`, exactly as the source does, and that an unknown
filter type only skips the row (no output, `prev` unchanged). -/
def filterRows (width : Nat) (data : List Nat) :
    Nat → List Nat → Option (List Nat) → Nat → Option (List Nat)
  | _, acc, _, 0 => some acc
  | row, acc, prev, rem + 1 =>
    let sl := width * 3 + 1
    match data[row * sl]? with
    | none => none
    | some ft =>
      let scanline := (data.drop (row * sl + 1)).take (width * 3)
      if ft = 0 then
        filterRows width data (row + 1) (acc ++ scanline) (some scanline) rem
      else if ft = 1 then
        filterRows width data (row + 1) (acc ++ apply_sub_filter scanline width)
          (some scanline) rem
      else if ft = 2 then
        match apply_up_filter scanline width prev with
        | none => none
        | some u => filterRows width data (row + 1) (acc ++ u) (some scanline) rem
      else if ft = 3 then
        match apply_average_filter scanline width prev 3 with
        | none => none
        | some u => filterRows width data (row + 1) (acc ++ u) (some scanline) rem
      else if ft = 4 then
        match apply_paeth_filter scanline width prev 3 with
        | none => none
        | some u => filterRows width data (row + 1) (acc ++ u) (some scanline) rem
      else
        filterRows width data (row + 1) acc prev rem

/-- Embedding of `apply_filters_to_data` (test2.py lines 195-225),
with `bytes_per_pixel = 3` hard-coded as in the source.  `none` models
an `IndexError` escaping the function. -/
def apply_filters_to_data (width height : Nat) (pixel_data : List Nat) :
    Option (List Nat) :=
  filterRows width pixel_data 0 [] none height

/-- Grouping loop of `interpret_rgb_8bit` (test2.py lines 243-248):
consume three bytes at a time into an (R, G, B) triple. -/
def rgbGo : List Nat → List (Nat × Nat × Nat)
  | r :: g :: b :: rest => (r, g, b) :: rgbGo rest
  | _ => []

/-- Embedding of `interpret_rgb_8bit` (test2.py lines 227-250): returns
`None` unless the data length is exactly `width * height * 3`. -/
def interpret_rgb_8bit (width height : Nat) (pixel_data : List Nat) :
    Option (List (Nat × Nat × Nat)) :=
  if pixel_data.length = width * height * 3 then some (rgbGo pixel_data)
  else none

/-- Modelled from the spec: the Paeth selector exactly as claim C4 words
it, choosing among the candidates `a`, `b`, `a + b - c` whichever is
closest to the predictor `p = a + b - c`, ties broken in order.  The
third candidate is the predictor itself, so its distance is 0; the value
can be negative, hence the `Int` result. -/
def claimPaethSel (a b c : Nat) : Int :=
  let p : Int := (a : Int) + (b : Int) - (c : Int)
  if (p - a).natAbs ≤ (p - b).natAbs ∧ (p - a).natAbs ≤ (p - p).natAbs then a
  else if (p - b).natAbs ≤ (p - p).natAbs then b
  else p

/-- Modelled from the spec (amended wording of C4): pick whichever of the
candidates `a`, `b`, `c` is closest to the predictor `a + b - c`, ties
broken in order `a`, then `b`, then `c`; stated via the minimum of the
three distances. -/
def specPaethSel (a b c : Nat) : Nat :=
  let p : Int := (a : Int) + (b : Int) - (c : Int)
  let da := (p - (a : Int)).natAbs
  let db := (p - (b : Int)).natAbs
  let dc := (p - (c : Int)).natAbs
  let m := min da (min db dc)
  if da = m then a else if db = m then b else c

/-- Modelled from the spec (section 4.5, missing from the source, which
keeps raw scanlines): reconstruction of one row, where `a` and `c` are 0
for the leftmost `bpp` byte positions, and `b`, `c` are read from the
previous RECONSTRUCTED row (`[]` for the first row, giving 0). -/
def specReconGo (ft bpp : Nat) (prev : List Nat) (acc : List Nat) :
    List Nat → List Nat
  | [] => acc
  | x :: rest =>
    let i := acc.length
    let a := if bpp ≤ i then acc.getD (i - bpp) 0 else 0
    let b := prev.getD i 0
    let c := if bpp ≤ i then prev.getD (i - bpp) 0 else 0
    let pr :=
      if ft = 1 then a
      else if ft = 2 then b
      else if ft = 3 then (a + b) / 2
      else if ft = 4 then specPaethSel a b c
      else 0
    let v := if ft = 0 then x else (x + pr) % 256
    specReconGo ft bpp prev (acc ++ [v]) rest

/-- Modelled from the spec: row loop of the correct defilter engine; the
fully reconstructed row becomes the previous-row reference. -/
def specDefilterGo (w bpp : Nat) (data : List Nat) :
    Nat → List Nat → List Nat → Nat → Option (List Nat)
  | _, acc, _, 0 => some acc
  | row, acc, prevRecon, rem + 1 =>
    let sl := w * bpp + 1
    let ft := data.getD (row * sl) 0
    let raw := (data.drop (row * sl + 1)).take (w * bpp)
    if ft < 5 then
      let recon := specReconGo ft bpp prevRecon [] raw
      specDefilterGo w bpp data (row + 1) (acc ++ recon) recon rem
    else none

/-- Modelled from the spec (section 4.5): the Scanline Defilter Engine as
specified, failing on short input (TruncatedScanlines) and on a filter
byte outside 0..4 (UnknownFilterType), both rendered as `none`. -/
def specDefilter (w h bpp : Nat) (data : List Nat) : Option (List Nat) :=
  if data.length < h * (1 + w * bpp) then none
  else specDefilterGo w bpp data 0 [] [] h

/-- Modelled from the spec (section 8, round-trip property): the forward
filter of one row, subtracting the predictor computed from the ORIGINAL
(unfiltered) bytes of the current and previous rows, modulo 256. -/
def specForwardRow (ft bpp : Nat) (prev orig : List Nat) : List Nat :=
  (List.range orig.length).map fun i =>
    let a := if bpp ≤ i then orig.getD (i - bpp) 0 else 0
    let b := prev.getD i 0
    let c := if bpp ≤ i then prev.getD (i - bpp) 0 else 0
    let pr :=
      if ft = 1 then a
      else if ft = 2 then b
      else if ft = 3 then (a + b) / 2
      else if ft = 4 then specPaethSel a b c
      else 0
    (((orig.getD i 0 : Int) - (pr : Int)) % 256).toNat

/-- Modelled from the spec: forward-filter a whole unfiltered image with
the same filter type on every row, emitting the filter byte before each
filtered row. -/
def specForwardImage (w h bpp ft : Nat) (orig : List Nat) : List Nat :=
  (List.range h).foldl
    (fun acc r =>
      let origRow := (orig.drop (r * (w * bpp))).take (w * bpp)
      let prevRow :=
        if r = 0 then [] else (orig.drop ((r - 1) * (w * bpp))).take (w * bpp)
      acc ++ ft :: specForwardRow ft bpp prevRow origRow)
    []

/-- The fixed 8-byte PNG signature checked at test2.py line 29. -/
def pngSignature : List Nat := [137, 80, 78, 71, 13, 10, 26, 10]

/-- ASCII bytes of the chunk tag IHDR. -/
def tagIHDR : List Nat := [73, 72, 68, 82]

/-- ASCII bytes of the chunk tag IDAT. -/
def tagIDAT : List Nat := [73, 68, 65, 84]

/-- ASCII bytes of the chunk tag IEND. -/
def tagIEND : List Nat := [73, 69, 78, 68]

/-- Big-endian value of a byte list, as computed by
`struct.unpack` with format `>I` on 4 bytes. -/
def be32 (l : List Nat) : Nat := l.foldl (fun acc b => acc * 256 + b) 0

/-- The 4 big-endian bytes of a value below `2 ^ 32`. -/
def be32inv (n : Nat) : List Nat :=
  [n / 16777216 % 256, n / 65536 % 256, n / 256 % 256, n % 256]

/-- The seven IHDR fields, in the order of the `>IIBBBBB` unpack at
test2.py line 76. -/
structure IHDRData where
  width : Nat
  height : Nat
  bit_depth : Nat
  color_type : Nat
  compression_method : Nat
  filter_method : Nat
  interlace_method : Nat
  deriving DecidableEq

/-- Parse a 13-byte IHDR payload (only called when the length check of
`struct.unpack` succeeds). -/
def parseIHDR (d : List Nat) : IHDRData where
  width := be32 (d.take 4)
  height := be32 ((d.drop 4).take 4)
  bit_depth := d.getD 8 0
  color_type := d.getD 9 0
  compression_method := d.getD 10 0
  filter_method := d.getD 11 0
  interlace_method := d.getD 12 0

/-- Mutable state of the chunk loop in `read_png`: the header fields
(`None` until an IHDR chunk is seen) and the concatenated IDAT payloads. -/
structure ChunkState where
  header : Option IHDRData
  idat : List Nat
  deriving DecidableEq

/-- Embedding of the chunk loop of `read_png` (test2.py lines 44-89),
reading from the byte list that remains after the signature.  Each
iteration reads a 4-byte big-endian length, a 4-byte tag, `length`
payload bytes and 4 checksum bytes; any short read returns `None`
(`none` here), as does a tag byte at or above 128 (the `ascii` decode
raises) and an IHDR payload that is not exactly 13 bytes (the
`struct.unpack` raises).  The checksum bytes are read and discarded.
IHDR overwrites the header fields, IDAT appends its payload, IEND stops
the loop, anything else is ignored. -/
def readChunks (st : ChunkState) (bytes : List Nat) : Option ChunkState :=
  if h4 : bytes.length < 4 then none
  else
    if (bytes.drop 4).length < 4 then none
    else
      if ((bytes.drop 4).take 4).any (fun b => 128 ≤ b) then none
      else if ((bytes.drop 4).drop 4).length < be32 (bytes.take 4) then none
      else
        if (((bytes.drop 4).drop 4).drop (be32 (bytes.take 4))).length < 4 then
          none
        else
          if (bytes.drop 4).take 4 = tagIHDR then
            if (((bytes.drop 4).drop 4).take (be32 (bytes.take 4))).length = 13 then
              readChunks
                { header :=
                    some (parseIHDR (((bytes.drop 4).drop 4).take (be32 (bytes.take 4)))),
                  idat := st.idat }
                ((((bytes.drop 4).drop 4).drop (be32 (bytes.take 4))).drop 4)
            else none
          else if (bytes.drop 4).take 4 = tagIDAT then
            readChunks
              { header := st.header,
                idat := st.idat ++ ((bytes.drop 4).drop 4).take (be32 (bytes.take 4)) }
              ((((bytes.drop 4).drop 4).drop (be32 (bytes.take 4))).drop 4)
          else if (bytes.drop 4).take 4 = tagIEND then some st
          else readChunks st ((((bytes.drop 4).drop 4).drop (be32 (bytes.take 4))).drop 4)
termination_by bytes.length
decreasing_by
  all_goals simp only [List.length_drop]; omega

/-- Embedding of `read_png` (test2.py lines 8-109) over an in-memory
byte list (the opened file's contents).  `decompress` is the external
zlib collaborator (spec section 4.4), a black-box transform whose
failure (`zlib.error`) is `none`.  After the chunk loop: decompress the
concatenated IDAT bytes, then (`width` being `None` raises before the
engine runs) require a header, then run the defilter engine; every
escaping exception becomes the `None` result of the `except` handlers. -/
def read_png (decompress : List Nat → Option (List Nat)) (file : List Nat) :
    Option (Nat × Nat × Nat × Nat × List Nat) :=
  if file.take 8 = pngSignature then
    match readChunks { header := none, idat := [] } (file.drop 8) with
    | none => none
    | some st =>
      match decompress st.idat with
      | none => none
      | some dec =>
        match st.header with
        | none => none
        | some h =>
          match apply_filters_to_data h.width h.height dec with
          | none => none
          | some unfiltered =>
            some (h.width, h.height, h.color_type, h.bit_depth, unfiltered)
  else none

/-- A raw chunk as laid out in the stream: tag, payload and the 4
checksum bytes; the length field is derived from the payload. -/
structure RawChunk where
  ctype : List Nat
  payload : List Nat
  crc : List Nat

/-- Serialize one chunk: big-endian length, tag, payload, checksum. -/
def serializeChunk (c : RawChunk) : List Nat :=
  be32inv c.payload.length ++ c.ctype ++ c.payload ++ c.crc

/-- Serialize a chunk sequence. -/
def serializeChunks : List RawChunk → List Nat
  | [] => []
  | c :: rest => serializeChunk c ++ serializeChunks rest

/-- Structural well-formedness of a serialized chunk: 4-byte tag, 4-byte
checksum, payload length expressible in the 4-byte length field. -/
def WfChunk (c : RawChunk) : Prop :=
  c.ctype.length = 4 ∧ c.payload.length < 4294967296 ∧ c.crc.length = 4

/-- Two chunk sequences that agree everywhere except possibly in their
checksum fields (both well formed). -/
inductive SameExceptCrc : List RawChunk → List RawChunk → Prop
  | nil : SameExceptCrc [] []
  | cons {c₁ c₂ : RawChunk} {t₁ t₂ : List RawChunk}
      (hty : c₁.ctype = c₂.ctype) (hpl : c₁.payload = c₂.payload)
      (h₁ : WfChunk c₁) (h₂ : WfChunk c₂)
      (ht : SameExceptCrc t₁ t₂) :
      SameExceptCrc (c₁ :: t₁) (c₂ :: t₂)

/-- The count of rows in the given range whose filter-type byte is one
of the five known values 0..4 (rows the engine emits output for). -/
def countValidRows (w : Nat) (data : List Nat) : Nat → Nat → Nat
  | _, 0 => 0
  | row, rem + 1 =>
    (if data.getD (row * (w * 3 + 1)) 0 < 5 then 1 else 0) +
      countValidRows w data (row + 1) rem

/-- The 13-byte IHDR payload for the given geometry and format bytes
(compression, filter and interlace method all 0). -/
def ihdrPayload (w h depth ct : Nat) : List Nat :=
  be32inv w ++ be32inv h ++ [depth, ct, 0, 0, 0]

/-- A complete single-IDAT stream for a 1 by 1 image carrying the given
bit depth and color type bytes, with one scanline `[0, a, b, c]`
(filter byte 0 and one RGB pixel); all checksums are zero. -/
def oneByOneStream (depth ct a b c : Nat) : List Nat :=
  pngSignature ++
    serializeChunks
      [{ ctype := tagIHDR, payload := ihdrPayload 1 1 depth ct, crc := [0, 0, 0, 0] },
       { ctype := tagIDAT, payload := [0, a, b, c], crc := [0, 0, 0, 0] },
       { ctype := tagIEND, payload := [], crc := [0, 0, 0, 0] }]

/-- Claim C1 (code bug): the engine's previous-row reference is the raw
still-filtered scanline, not the reconstructed row.  Rows: row 0 uses Sub
(raw `[1,0,0,1,0,0]`, reconstructed `[1,0,0,2,0,0]`), row 1 uses Up on
all-zero bytes, so it reproduces whatever reference was kept: the code
yields the raw row 0, the spec's engine the reconstructed row 0, and the
two disagree at byte 9. -/
theorem c1_raw_previous_row :
    apply_filters_to_data 2 2 [1, 1, 0, 0, 1, 0, 0, 2, 0, 0, 0, 0, 0, 0] =
      some [1, 0, 0, 2, 0, 0, 1, 0, 0, 1, 0, 0] ∧
    specDefilter 2 2 3 [1, 1, 0, 0, 1, 0, 0, 2, 0, 0, 0, 0, 0, 0] =
      some [1, 0, 0, 2, 0, 0, 1, 0, 0, 2, 0, 0] ∧
    apply_filters_to_data 2 2 [1, 1, 0, 0, 1, 0, 0, 2, 0, 0, 0, 0, 0, 0] ≠
      specDefilter 2 2 3 [1, 1, 0, 0, 1, 0, 0, 2, 0, 0, 0, 0, 0, 0] := by
  decide

/-- Claim C2 (code bug): round-trip fails.  Forward-filtering the 1 by 3
image `[1,0,0 / 0,0,0 / 0,0,0]` with Up on every row and feeding the
result to `apply_filters_to_data` returns `[1,0,0 / 0,0,0 / 255,0,0]`,
not the original bytes, because row 2 is reconstructed against the raw
(still-filtered) row 1; the spec's engine round-trips correctly. -/
theorem c2_roundtrip_fails :
    specForwardImage 1 3 3 2 [1, 0, 0, 0, 0, 0, 0, 0, 0] =
      [2, 1, 0, 0, 2, 255, 0, 0, 2, 0, 0, 0] ∧
    apply_filters_to_data 1 3 [2, 1, 0, 0, 2, 255, 0, 0, 2, 0, 0, 0] =
      some [1, 0, 0, 0, 0, 0, 255, 0, 0] ∧
    apply_filters_to_data 1 3 (specForwardImage 1 3 3 2 [1, 0, 0, 0, 0, 0, 0, 0, 0]) ≠
      some [1, 0, 0, 0, 0, 0, 0, 0, 0] ∧
    specDefilter 1 3 3 (specForwardImage 1 3 3 2 [1, 0, 0, 0, 0, 0, 0, 0, 0]) =
      some [1, 0, 0, 0, 0, 0, 0, 0, 0] := by
  decide

/-- Claim C3: the decompressed payload `[0, 255,0,0, 0,255,0]` of a
2 by 1 truecolor image defilters to `[255,0,0,0,255,0]`, and assembling
those bytes as 8-bit RGB yields the pixels red then green. -/
theorem c3_end_to_end :
    apply_filters_to_data 2 1 [0, 255, 0, 0, 0, 255, 0] =
      some [255, 0, 0, 0, 255, 0] ∧
    interpret_rgb_8bit 2 1 [255, 0, 0, 0, 255, 0] =
      some [(255, 0, 0), (0, 255, 0)] := by
  decide

/-- Claim C4, counterexample to the claim as stated: with the claimed
candidate set a, b, (a+b-c), at a = 0, b = 1, c = 2 and raw byte x = 0
the claimed reconstruction is 255, while the code (whose third candidate
is c) reconstructs 0. -/
theorem c4_claim_counterexample :
    (0 + paeth_predictor 0 1 2) % 256 = 0 ∧
    ((0 : Int) + claimPaethSel 0 1 2) % 256 = 255 ∧
    ¬ ((((0 + paeth_predictor 0 1 2) % 256 : Nat) : Int) =
        ((0 : Int) + claimPaethSel 0 1 2) % 256) := by
  decide

/-- Claim C4 as amended: the Paeth reconstruction adds, modulo 256, the
candidate among a, b, c (not a+b-c) closest to the predictor a+b-c with
ties broken in order a, b, c; and at a = b = c = 10 the result is 10. -/
theorem c4_paeth_amended (x a b c : Nat) :
    (x + paeth_predictor a b c) % 256 = (x + specPaethSel a b c) % 256 ∧
    paeth_predictor 10 10 10 = 10 := by
  refine ⟨?_, by decide⟩
  have h : paeth_predictor a b c = specPaethSel a b c := by
    simp only [paeth_predictor, specPaethSel]
    split_ifs <;> omega
  rw [h]

theorem subGo_length (rest : List Nat) : ∀ acc : List Nat,
    (subGo acc rest).length = acc.length + rest.length := by
  induction rest with
  | nil => intro acc; simp [subGo]
  | cons x rest ih =>
    intro acc
    simp only [subGo]
    split
    · rw [ih]; simp; omega
    · rw [ih]; simp; omega

theorem upGo_some (s : List Nat) : ∀ p : List Nat, s.length ≤ p.length →
    ∃ u, upGo s p = some u ∧ u.length = s.length := by
  induction s with
  | nil => intro p h; exact ⟨[], rfl, rfl⟩
  | cons x rest ih =>
    intro p h
    cases p with
    | nil => simp at h
    | cons q qs =>
      obtain ⟨u, hu, hl⟩ := ih qs (by simp at h; omega)
      refine ⟨(x + q) % 256 :: u, ?_, by simp [hl]⟩
      simp [upGo, hu]

theorem avgGo_some (bpp : Nat) (p : Option (List Nat)) (rest : List Nat) :
    ∀ acc : List Nat,
      (prevTruthy p = true → acc.length + rest.length ≤ (p.getD []).length) →
      ∃ u, avgGo bpp p acc rest = some u ∧ u.length = acc.length + rest.length := by
  induction rest with
  | nil => intro acc h; exact ⟨acc, rfl, by simp⟩
  | cons x rest ih =>
    intro acc h
    simp only [avgGo]
    cases hT : prevTruthy p with
    | false =>
      simp only [hT, Bool.false_eq_true, if_false]
      obtain ⟨u, hu, hl⟩ := ih (acc ++ [(x + ((if bpp ≤ acc.length then acc.getD (acc.length - bpp) 0 else 0) + 0) / 2) % 256]) (by simp [hT])
      refine ⟨u, hu, ?_⟩
      simp at hl ⊢; omega
    | true =>
      have hlt : acc.length < (p.getD []).length := by
        have := h hT; simp at this ⊢; omega
      obtain ⟨b, hb⟩ : ∃ b, (p.getD [])[acc.length]? = some b :=
        ⟨_, List.getElem?_eq_getElem hlt⟩
      simp only [hT, if_true, hb]
      obtain ⟨u, hu, hl⟩ := ih (acc ++ [(x + ((if bpp ≤ acc.length then acc.getD (acc.length - bpp) 0 else 0) + b) / 2) % 256]) (by intro _; have := h hT; simp at this ⊢; omega)
      refine ⟨u, hu, ?_⟩
      simp at hl ⊢; omega

theorem paethGo_some (bpp : Nat) (p : Option (List Nat)) (rest : List Nat) :
    ∀ acc : List Nat,
      (prevTruthy p = true → acc.length + rest.length ≤ (p.getD []).length) →
      ∃ u, paethGo bpp p acc rest = some u ∧ u.length = acc.length + rest.length := by
  induction rest with
  | nil => intro acc h; exact ⟨acc, rfl, by simp⟩
  | cons x rest ih =>
    intro acc h
    simp only [paethGo]
    cases hT : prevTruthy p with
    | false =>
      simp only [hT, Bool.false_eq_true, if_false, false_and]
      obtain ⟨u, hu, hl⟩ := ih (acc ++ [_]) (by simp [hT])
      refine ⟨u, hu, ?_⟩
      simp at hl ⊢; omega
    | true =>
      have hlt : acc.length < (p.getD []).length := by
        have := h hT; simp at this ⊢; omega
      obtain ⟨b, hb⟩ : ∃ b, (p.getD [])[acc.length]? = some b :=
        ⟨_, List.getElem?_eq_getElem hlt⟩
      simp only [hT, if_true, hb, true_and]
      by_cases hbpp : bpp ≤ acc.length
      · have hlt2 : acc.length - bpp < (p.getD []).length := by omega
        obtain ⟨c, hc⟩ : ∃ c, (p.getD [])[acc.length - bpp]? = some c :=
          ⟨_, List.getElem?_eq_getElem hlt2⟩
        simp only [hbpp, if_true, hc]
        obtain ⟨u, hu, hl⟩ := ih (acc ++ [_]) (by intro _; have := h hT; simp at this ⊢; omega)
        refine ⟨u, hu, ?_⟩
        simp at hl ⊢; omega
      · simp only [hbpp, if_false]
        obtain ⟨u, hu, hl⟩ := ih (acc ++ [_]) (by intro _; have := h hT; simp at this ⊢; omega)
        refine ⟨u, hu, ?_⟩
        simp at hl ⊢; omega

theorem countValidRows_succ (w : Nat) (data : List Nat) (row rem : Nat) :
    countValidRows w data row (rem + 1) =
      (if data.getD (row * (w * 3 + 1)) 0 < 5 then 1 else 0) +
        countValidRows w data (row + 1) rem := rfl

theorem countValidRows_le (w : Nat) (data : List Nat) :
    ∀ rem row, countValidRows w data row rem ≤ rem := by
  intro rem
  induction rem with
  | zero => intro row; simp [countValidRows]
  | succ rem ih =>
    intro row
    rw [countValidRows_succ]
    have := ih (row + 1)
    split <;> omega

theorem countValidRows_all (w : Nat) (data : List Nat) :
    ∀ rem row, (∀ j, j < rem → data.getD ((row + j) * (w * 3 + 1)) 0 < 5) →
      countValidRows w data row rem = rem := by
  intro rem
  induction rem with
  | zero => intro row _; simp [countValidRows]
  | succ rem ih =>
    intro row h
    rw [countValidRows_succ]
    have h0 := h 0 (by omega)
    simp only [Nat.add_zero] at h0
    rw [if_pos h0, ih (row + 1) (fun j hj => by
      have := h (j + 1) (by omega)
      have e : row + 1 + j = row + (j + 1) := by omega
      rw [e]; exact this)]
    omega

theorem countValidRows_lt (w : Nat) (data : List Nat) :
    ∀ rem row, (∃ j, j < rem ∧ ¬ data.getD ((row + j) * (w * 3 + 1)) 0 < 5) →
      countValidRows w data row rem < rem := by
  intro rem
  induction rem with
  | zero => intro row h; obtain ⟨j, hj, _⟩ := h; omega
  | succ rem ih =>
    intro row h
    obtain ⟨j, hj, hbad⟩ := h
    rw [countValidRows_succ]
    cases j with
    | zero =>
      simp only [Nat.add_zero] at hbad
      rw [if_neg hbad]
      have := countValidRows_le w data rem (row + 1)
      omega
    | succ j =>
      have : countValidRows w data (row + 1) rem < rem := by
        refine ih (row + 1) ⟨j, by omega, ?_⟩
        have e : row + 1 + j = row + (j + 1) := by omega
        rw [e]; exact hbad
      split <;> omega

theorem filterRows_total (w : Nat) (data : List Nat) :
    ∀ (rem row : Nat) (acc : List Nat) (prev : Option (List Nat)),
      (row + rem) * (w * 3 + 1) ≤ data.length →
      (∀ p, prev = some p → p.length = w * 3) →
      ∃ out, filterRows w data row acc prev rem = some out ∧
        out.length = acc.length + w * 3 * countValidRows w data row rem := by
  intro rem
  induction rem with
  | zero =>
    intro row acc prev h hp
    exact ⟨acc, rfl, by simp [countValidRows]⟩
  | succ rem ih =>
    intro row acc prev h hp
    have hsl : (row + 1) * (w * 3 + 1) ≤ data.length := by
      calc (row + 1) * (w * 3 + 1) ≤ (row + (rem + 1)) * (w * 3 + 1) :=
            Nat.mul_le_mul_right _ (by omega)
        _ ≤ data.length := h
    have hidx : row * (w * 3 + 1) < data.length := by
      have : row * (w * 3 + 1) + (w * 3 + 1) = (row + 1) * (w * 3 + 1) := by ring
      omega
    have hnext : (row + 1 + rem) * (w * 3 + 1) ≤ data.length := by
      have e : row + 1 + rem = row + (rem + 1) := by omega
      rw [e]; exact h
    have hscan :
        ((data.drop (row * (w * 3 + 1) + 1)).take (w * 3)).length = w * 3 := by
      simp only [List.length_take, List.length_drop]
      have : row * (w * 3 + 1) + (w * 3 + 1) = (row + 1) * (w * 3 + 1) := by ring
      omega
    have hget : data[row * (w * 3 + 1)]? = some (data.getD (row * (w * 3 + 1)) 0) := by
      rw [List.getD_eq_getElem?_getD, List.getElem?_eq_getElem hidx]
      simp [List.getElem?_eq_getElem hidx]
    set ft := data.getD (row * (w * 3 + 1)) 0 with hft
    set scanline := (data.drop (row * (w * 3 + 1) + 1)).take (w * 3) with hscandef
    have hprevinv : ∀ p : List Nat, some scanline = some p → p.length = w * 3 := by
      intro p hp2
      cases hp2
      exact hscan
    simp only [filterRows, hget]
    rw [countValidRows_succ]
    by_cases h0 : ft = 0
    · simp only [h0, if_pos rfl]
      obtain ⟨out, ho, hl⟩ := ih (row + 1) (acc ++ scanline) (some scanline) hnext hprevinv
      refine ⟨out, ho, ?_⟩
      rw [hl, if_pos (show ft < 5 by omega), List.length_append, hscan]
      ring
    · rw [if_neg h0]
      by_cases h1 : ft = 1
      · rw [if_pos h1]
        obtain ⟨out, ho, hl⟩ :=
          ih (row + 1) (acc ++ apply_sub_filter scanline w) (some scanline) hnext hprevinv
        refine ⟨out, ho, ?_⟩
        have hsub : (apply_sub_filter scanline w).length = w * 3 := by
          unfold apply_sub_filter
          rw [subGo_length]
          simp [hscan]
        rw [hl, if_pos (show ft < 5 by omega), List.length_append, hsub]
        ring
      · rw [if_neg h1]
        by_cases h2 : ft = 2
        · rw [if_pos h2]
          have hup : ∃ u, apply_up_filter scanline w prev = some u ∧ u.length = w * 3 := by
            cases prev with
            | none => exact ⟨scanline, rfl, hscan⟩
            | some p =>
              have hpl : p.length = w * 3 := hp p rfl
              obtain ⟨u, hu, hul⟩ := upGo_some scanline p (by omega)
              exact ⟨u, hu, by omega⟩
          obtain ⟨u, hu, hul⟩ := hup
          rw [hu]
          obtain ⟨out, ho, hl⟩ := ih (row + 1) (acc ++ u) (some scanline) hnext hprevinv
          refine ⟨out, ho, ?_⟩
          rw [hl, if_pos (show ft < 5 by omega), List.length_append, hul]
          ring
        · rw [if_neg h2]
          have hbound : prevTruthy prev = true → 0 + scanline.length ≤ (prev.getD []).length := by
            intro hT
            cases prev with
            | none => simp [prevTruthy] at hT
            | some p =>
              cases p with
              | nil => simp [prevTruthy] at hT
              | cons q qs =>
                have := hp (q :: qs) rfl
                simp only [Option.getD_some]
                omega
          by_cases h3 : ft = 3
          · rw [if_pos h3]
            obtain ⟨u, hu, hul⟩ := avgGo_some 3 prev scanline [] (by simpa using hbound)
            unfold apply_average_filter
            rw [hu]
            obtain ⟨out, ho, hl⟩ := ih (row + 1) (acc ++ u) (some scanline) hnext hprevinv
            refine ⟨out, ho, ?_⟩
            simp only [List.length_nil, Nat.zero_add] at hul
            rw [hl, if_pos (show ft < 5 by omega), List.length_append, hul, hscan]
            ring
          · rw [if_neg h3]
            by_cases h4 : ft = 4
            · rw [if_pos h4]
              obtain ⟨u, hu, hul⟩ := paethGo_some 3 prev scanline [] (by simpa using hbound)
              unfold apply_paeth_filter
              rw [hu]
              obtain ⟨out, ho, hl⟩ := ih (row + 1) (acc ++ u) (some scanline) hnext hprevinv
              refine ⟨out, ho, ?_⟩
              simp only [List.length_nil, Nat.zero_add] at hul
              rw [hl, if_pos (show ft < 5 by omega), List.length_append, hul, hscan]
              ring
            · rw [if_neg h4]
              obtain ⟨out, ho, hl⟩ := ih (row + 1) acc prev hnext hp
              refine ⟨out, ho, ?_⟩
              rw [hl, if_neg (show ¬ ft < 5 by omega)]
              ring

/-- Claim C5, counterexample to the claim as stated: with filter byte 9
on row 0 (width 1, height 2) the engine does not fail; it skips the row
and returns the shortened output of row 1 alone. -/
theorem c5_claim_counterexample :
    apply_filters_to_data 1 2 [9, 1, 2, 3, 0, 4, 5, 6] = some [4, 5, 6] ∧
    apply_filters_to_data 1 2 [9, 1, 2, 3, 0, 4, 5, 6] ≠ none := by
  decide

/-- Claim C5 as amended: on an input long enough for every row, a filter
byte outside 0..4 does not surface any error; the engine returns a
result that simply omits the offending rows, so with at least one bad
row and positive width the output is strictly shorter than
`height * width * 3`. -/
theorem c5_bad_filter_skipped (w h : Nat) (data : List Nat)
    (hw : 0 < w)
    (hlen : h * (w * 3 + 1) ≤ data.length)
    (hbad : ∃ r, r < h ∧ ¬ data.getD (r * (w * 3 + 1)) 0 < 5) :
    ∃ out, apply_filters_to_data w h data = some out ∧
      out.length = w * 3 * countValidRows w data 0 h ∧
      out.length < h * w * 3 := by
  obtain ⟨out, ho, hl⟩ := filterRows_total w data h 0 [] none
    (by simpa using hlen) (by intro p hp; cases hp)
  refine ⟨out, ho, ?_, ?_⟩
  · simpa using hl
  · have hcv : countValidRows w data 0 h < h := by
      refine countValidRows_lt w data h 0 ?_
      obtain ⟨r, hr, hb⟩ := hbad
      exact ⟨r, hr, by simpa using hb⟩
    have : w * 3 * countValidRows w data 0 h < w * 3 * h :=
      (Nat.mul_lt_mul_left (by omega)).mpr hcv
    simp only [List.length_nil, Nat.zero_add] at hl
    calc out.length = w * 3 * countValidRows w data 0 h := hl
      _ < w * 3 * h := this
      _ = h * w * 3 := by ring

/-- Witness for the amended claim C5 at the counterexample input. -/
theorem c5_bad_filter_skipped_witness :
    ∃ out, apply_filters_to_data 1 2 [9, 1, 2, 3, 0, 4, 5, 6] = some out ∧
      out.length = 1 * 3 * countValidRows 1 [9, 1, 2, 3, 0, 4, 5, 6] 0 2 ∧
      out.length < 2 * 1 * 3 :=
  c5_bad_filter_skipped 1 2 [9, 1, 2, 3, 0, 4, 5, 6] (by decide) (by decide)
    ⟨0, by decide, by decide⟩

/-- Claim C6, counterexample to the second half of the claim as stated:
the input `[0, 1, 2]` for width 1, height 1 is one byte shorter than the
required `height * (1 + width * 3) = 4` bytes, yet the engine does not
fail; it returns the silently shortened output `[1, 2]`. -/
theorem c6_claim_counterexample :
    apply_filters_to_data 1 1 [0, 1, 2] = some [1, 2] ∧
    apply_filters_to_data 1 1 [0, 1, 2] ≠ none ∧
    [0, 1, 2].length < 1 * (1 + 1 * 3) := by
  decide

/-- Claim C6 as amended (first half, with `bytesPerPixel` fixed at 3 as
the engine hard-codes it): on input of at least
`height * (1 + width * 3)` bytes whose per-row filter bytes are all in
0..4 the engine succeeds with exactly `height * width * 3` output
bytes.  (The second half of the claim is false: short input is not
reported as `TruncatedScanlines`; see the counterexample.) -/
theorem c6_output_length (w h : Nat) (data : List Nat)
    (hlen : h * (1 + w * 3) ≤ data.length)
    (hft : ∀ r, r < h → data.getD (r * (w * 3 + 1)) 0 < 5) :
    ∃ out, apply_filters_to_data w h data = some out ∧
      out.length = h * w * 3 := by
  obtain ⟨out, ho, hl⟩ := filterRows_total w data h 0 [] none
    (by have e : h * (1 + w * 3) = (0 + h) * (w * 3 + 1) := by ring
        omega)
    (by intro p hp; cases hp)
  refine ⟨out, ho, ?_⟩
  have hcv : countValidRows w data 0 h = h := by
    refine countValidRows_all w data h 0 (fun j hj => ?_)
    simpa using hft j hj
  rw [hl, hcv]
  simp only [List.length_nil, Nat.zero_add]
  ring

/-- Witness for the amended claim C6 on a well-formed 1 by 1 input. -/
theorem c6_output_length_witness :
    ∃ out, apply_filters_to_data 1 1 [0, 5, 6, 7] = some out ∧
      out.length = 1 * 1 * 3 :=
  c6_output_length 1 1 [0, 5, 6, 7] (by decide)
    (fun r hr => by interval_cases r; decide)

theorem rgbGo_length : ∀ l : List Nat, (rgbGo l).length = l.length / 3
  | [] => rfl
  | [a] => by simp [rgbGo]
  | [a, b] => by simp [rgbGo]
  | a :: b :: c :: rest => by
    have ih := rgbGo_length rest
    simp [rgbGo, ih]
    omega

theorem rgbGo_getD (k : Nat) : ∀ l : List Nat, 3 * k + 3 ≤ l.length →
    (rgbGo l).getD k (0, 0, 0) =
      (l.getD (3 * k) 0, l.getD (3 * k + 1) 0, l.getD (3 * k + 2) 0) := by
  induction k with
  | zero =>
    intro l h
    match l with
    | r :: g :: b :: rest => simp [rgbGo]
  | succ k ih =>
    intro l h
    match l with
    | r :: g :: b :: rest =>
      have e0 : 3 * (k + 1) = 3 * k + 1 + 1 + 1 := by ring
      have e1 : 3 * (k + 1) + 1 = 3 * k + 1 + 1 + 1 + 1 := by ring
      have e2 : 3 * (k + 1) + 2 = 3 * k + 2 + 1 + 1 + 1 := by ring
      rw [e2, e1, e0]
      simp only [rgbGo, List.getD_cons_succ]
      exact ih rest (by simp at h; omega)

/-- Claim C10: `interpret_rgb_8bit` returns the error sentinel exactly
when the byte count differs from `width * height * 3`; on success it
returns `width * height` triples in stream order, triple `k` being
`(data[3k], data[3k+1], data[3k+2])`. -/
theorem c10_interpret_rgb (w h : Nat) (data : List Nat) :
    (interpret_rgb_8bit w h data = none ↔ data.length ≠ w * h * 3) ∧
    ∀ out, interpret_rgb_8bit w h data = some out →
      out.length = w * h ∧
      ∀ k, k < w * h →
        out.getD k (0, 0, 0) =
          (data.getD (3 * k) 0, data.getD (3 * k + 1) 0, data.getD (3 * k + 2) 0) := by
  unfold interpret_rgb_8bit
  split_ifs with hl
  · refine ⟨by simp [hl], ?_⟩
    intro out hout
    obtain rfl : rgbGo data = out := by injection hout
    constructor
    · rw [rgbGo_length, hl]
      omega
    · intro k hk
      exact rgbGo_getD k data (by omega)
  · refine ⟨by simp [hl], ?_⟩
    intro out hout
    cases hout

/-- Witness for claim C10 on a single red pixel. -/
theorem c10_interpret_rgb_witness :
    ([(255, 0, 0)] : List (Nat × Nat × Nat)).length = 1 * 1 ∧
    [(255, 0, 0)].getD 0 (0, 0, 0) = (255, 0, 0) := by
  have h := (c10_interpret_rgb 1 1 [255, 0, 0]).2 [(255, 0, 0)] (by decide)
  exact ⟨h.1, by decide⟩

theorem length_be32inv (n : Nat) : (be32inv n).length = 4 := rfl

theorem be32_be32inv (n : Nat) (h : n < 4294967296) : be32 (be32inv n) = n := by
  simp [be32, be32inv]
  omega

theorem readChunks_cons (st : ChunkState) (c : RawChunk) (rest : List Nat)
    (hty : c.ctype.length = 4) (hpl : c.payload.length < 4294967296)
    (hcrc : c.crc.length = 4) :
    readChunks st (serializeChunk c ++ rest) =
      if c.ctype.any (fun b => 128 ≤ b) then none
      else if c.ctype = tagIHDR then
        if c.payload.length = 13 then
          readChunks { header := some (parseIHDR c.payload), idat := st.idat } rest
        else none
      else if c.ctype = tagIDAT then
        readChunks { header := st.header, idat := st.idat ++ c.payload } rest
      else if c.ctype = tagIEND then some st
      else readChunks st rest := by
  have e : serializeChunk c ++ rest =
      be32inv c.payload.length ++ (c.ctype ++ (c.payload ++ (c.crc ++ rest))) := by
    simp [serializeChunk]
  have hlen4 : (be32inv c.payload.length).length = 4 := rfl
  have htake :
      (be32inv c.payload.length ++ (c.ctype ++ (c.payload ++ (c.crc ++ rest)))).take 4 =
        be32inv c.payload.length := List.take_left' hlen4
  have hdrop :
      (be32inv c.payload.length ++ (c.ctype ++ (c.payload ++ (c.crc ++ rest)))).drop 4 =
        c.ctype ++ (c.payload ++ (c.crc ++ rest)) := List.drop_left' hlen4
  have htake2 : (c.ctype ++ (c.payload ++ (c.crc ++ rest))).take 4 = c.ctype :=
    List.take_left' hty
  have hdrop2 :
      (c.ctype ++ (c.payload ++ (c.crc ++ rest))).drop 4 = c.payload ++ (c.crc ++ rest) :=
    List.drop_left' hty
  have hbe : be32 (be32inv c.payload.length) = c.payload.length := be32_be32inv _ hpl
  have htake3 : (c.payload ++ (c.crc ++ rest)).take c.payload.length = c.payload :=
    List.take_left _ _
  have hdrop3 : (c.payload ++ (c.crc ++ rest)).drop c.payload.length = c.crc ++ rest :=
    List.drop_left _ _
  have hdrop4 : (c.crc ++ rest).drop 4 = rest := List.drop_left' hcrc
  rw [e, readChunks]
  simp only [htake, hdrop, htake2, hdrop2, hbe, htake3, hdrop3, hdrop4,
    List.length_append, hlen4, hty, hcrc]
  rw [dif_neg (show ¬ 4 + (4 + (c.payload.length + (4 + rest.length))) < 4 by omega)]
  rw [if_neg (show ¬ 4 + (c.payload.length + (4 + rest.length)) < 4 by omega)]
  rw [if_neg (show ¬ c.payload.length + (4 + rest.length) < c.payload.length by omega)]
  rw [if_neg (show ¬ 4 + rest.length < 4 by omega)]

theorem readChunks_crc_congr {cs₁ cs₂ : List RawChunk} (h : SameExceptCrc cs₁ cs₂) :
    ∀ st, readChunks st (serializeChunks cs₁) = readChunks st (serializeChunks cs₂) := by
  induction h with
  | nil => intro st; rfl
  | cons hty hpl h₁ h₂ ht ih =>
    intro st
    obtain ⟨ht1, hp1, hc1⟩ := h₁
    obtain ⟨ht2, hp2, hc2⟩ := h₂
    rw [serializeChunks, serializeChunks, readChunks_cons _ _ _ ht1 hp1 hc1,
      readChunks_cons _ _ _ ht2 hp2 hc2, hty, hpl]
    simp only [ih]

/-- Helper: `read_png` on a stream with a valid signature reduces to the
chunk loop on the remainder. -/
theorem read_png_eq (d : List Nat → Option (List Nat)) (l : List Nat) :
    read_png d (pngSignature ++ l) =
      match readChunks { header := none, idat := [] } l with
      | none => none
      | some st =>
        match d st.idat with
        | none => none
        | some dec =>
          match st.header with
          | none => none
          | some h =>
            match apply_filters_to_data h.width h.height dec with
            | none => none
            | some u => some (h.width, h.height, h.color_type, h.bit_depth, u) := by
  unfold read_png
  have hs : (pngSignature ++ l).take 8 = pngSignature := List.take_left' rfl
  have hd : (pngSignature ++ l).drop 8 = l := List.drop_left' rfl
  rw [hs, hd, if_pos rfl]

/-- Claim C9: with checksum verification absent (the code reads and
discards the 4 CRC bytes of every chunk), decoding does not depend on
the checksum bytes: two streams that agree except in checksum fields
decode identically, for any behaviour of the decompression collaborator. -/
theorem c9_checksum_insensitive (d : List Nat → Option (List Nat))
    {cs₁ cs₂ : List RawChunk} (h : SameExceptCrc cs₁ cs₂) :
    read_png d (pngSignature ++ serializeChunks cs₁) =
      read_png d (pngSignature ++ serializeChunks cs₂) := by
  rw [read_png_eq, read_png_eq, readChunks_crc_congr h]

/-- Witness for claim C9: two one-chunk streams differing only in the
trailer checksum decode to the same result. -/
theorem c9_checksum_insensitive_witness :
    read_png (fun l => some l)
        (pngSignature ++
          serializeChunks [{ ctype := tagIEND, payload := [], crc := [1, 2, 3, 4] }]) =
      read_png (fun l => some l)
        (pngSignature ++
          serializeChunks [{ ctype := tagIEND, payload := [], crc := [9, 8, 7, 6] }]) :=
  c9_checksum_insensitive (fun l => some l)
    (SameExceptCrc.cons rfl rfl ⟨rfl, by decide, rfl⟩ ⟨rfl, by decide, rfl⟩
      SameExceptCrc.nil)

theorem readChunks_truncated (L : Nat) (ty tail : List Nat)
    (hty : ty.length = 4) (hL : L < 4294967296) (hshort : tail.length < L) :
    ∀ st, readChunks st (be32inv L ++ ty ++ tail) = none := by
  intro st
  have e : be32inv L ++ ty ++ tail = be32inv L ++ (ty ++ tail) := by
    simp [List.append_assoc]
  have hlen4 : (be32inv L).length = 4 := rfl
  have htake : (be32inv L ++ (ty ++ tail)).take 4 = be32inv L := List.take_left' hlen4
  have hdrop : (be32inv L ++ (ty ++ tail)).drop 4 = ty ++ tail := List.drop_left' hlen4
  have htake2 : (ty ++ tail).take 4 = ty := List.take_left' hty
  have hdrop2 : (ty ++ tail).drop 4 = tail := List.drop_left' hty
  have hbe : be32 (be32inv L) = L := be32_be32inv _ hL
  rw [e, readChunks]
  simp only [htake, hdrop, htake2, hdrop2, hbe, List.length_append, hlen4, hty]
  rw [dif_neg (show ¬ 4 + (4 + tail.length) < 4 by omega)]
  rw [if_neg (show ¬ 4 + tail.length < 4 by omega)]
  by_cases hA : (ty.any fun b => decide (128 ≤ b)) = true
  · rw [if_pos hA]
  · rw [if_neg hA, if_pos hshort]

theorem readChunks_prefix_truncated (cs : List RawChunk)
    (hcs : ∀ c ∈ cs, WfChunk c ∧ c.ctype ≠ tagIEND) :
    ∀ (st : ChunkState) (L : Nat) (ty tail : List Nat), ty.length = 4 →
      L < 4294967296 → tail.length < L →
      readChunks st (serializeChunks cs ++ (be32inv L ++ ty ++ tail)) = none := by
  induction cs with
  | nil =>
    intro st L ty tail h1 h2 h3
    rw [serializeChunks, List.nil_append]
    exact readChunks_truncated L ty tail h1 h2 h3 st
  | cons c cs ih =>
    intro st L ty tail h1 h2 h3
    obtain ⟨⟨ht, hp, hcr⟩, hne⟩ := hcs c (by simp)
    have ih2 := ih (fun x hx => hcs x (by simp [hx]))
    rw [serializeChunks, List.append_assoc, readChunks_cons _ _ _ ht hp hcr]
    by_cases hA : (c.ctype.any fun b => decide (128 ≤ b)) = true
    · rw [if_pos hA]
    · rw [if_neg hA]
      by_cases hH : c.ctype = tagIHDR
      · rw [if_pos hH]
        by_cases h13 : c.payload.length = 13
        · rw [if_pos h13, ih2 _ L ty tail h1 h2 h3]
        · rw [if_neg h13]
      · rw [if_neg hH]
        by_cases hD : c.ctype = tagIDAT
        · rw [if_pos hD, ih2 _ L ty tail h1 h2 h3]
        · rw [if_neg hD, if_neg hne, ih2 _ L ty tail h1 h2 h3]

/-- Claim C7 (amended part): whenever a chunk's declared big-endian
length exceeds the bytes remaining after its tag, `read_png` aborts with
the error result (`None`); no chunk with a short payload is ever
consumed (the preceding chunks may be any well-formed non-IEND chunks). -/
theorem c7_truncated_chunk (d : List Nat → Option (List Nat))
    (cs : List RawChunk) (hcs : ∀ c ∈ cs, WfChunk c ∧ c.ctype ≠ tagIEND)
    (L : Nat) (ty tail : List Nat) (hty : ty.length = 4)
    (hL : L < 4294967296) (hshort : tail.length < L) :
    read_png d (pngSignature ++ (serializeChunks cs ++ (be32inv L ++ ty ++ tail))) =
      none := by
  rw [read_png_eq, readChunks_prefix_truncated cs hcs _ L ty tail hty hL hshort]

/-- Witness for claim C7: an IDAT chunk declaring 5 payload bytes with
only 2 remaining aborts the decode. -/
theorem c7_truncated_chunk_witness :
    read_png (fun l => some l)
        (pngSignature ++ (serializeChunks [] ++ (be32inv 5 ++ tagIDAT ++ [1, 2]))) =
      none :=
  c7_truncated_chunk (fun l => some l) [] (by intro c hc; cases hc) 5 tagIDAT [1, 2]
    rfl (by decide) (by decide)

/-- Claim C7, counterexample to the distinctness part: the truncated
chunk and a completely different failure (an invalid signature, the
byte-source analogue of an unreadable file) produce the same error value
`None`; the code has no distinct TruncatedStream error. -/
theorem c7_error_not_distinct :
    read_png (fun l => some l)
        (pngSignature ++ (serializeChunks [] ++ (be32inv 5 ++ tagIDAT ++ [7, 7]))) =
      none ∧
    read_png (fun l => some l) [1, 2, 3] = none ∧
    read_png (fun l => some l)
        (pngSignature ++ (serializeChunks [] ++ (be32inv 5 ++ tagIDAT ++ [7, 7]))) =
      read_png (fun l => some l) [1, 2, 3] := by
  have h1 : read_png (fun l => some l)
      (pngSignature ++ (serializeChunks [] ++ (be32inv 5 ++ tagIDAT ++ [7, 7]))) =
      none := by
    rw [read_png_eq, readChunks_prefix_truncated [] (by intro c hc; cases hc) _ 5
      tagIDAT [7, 7] rfl (by decide) (by decide)]
  have h2 : read_png (fun l => some l) [1, 2, 3] = none := by
    unfold read_png
    rw [if_neg (by decide)]
  exact ⟨h1, h2, by rw [h1, h2]⟩

theorem oneByOne_decodes (depth ct a b c : Nat) :
    read_png (fun l => some l) (oneByOneStream depth ct a b c) =
      some (1, 1, ct, depth, [a, b, c]) := by
  unfold oneByOneStream
  rw [read_png_eq]
  simp only [serializeChunks]
  rw [readChunks_cons { header := none, idat := [] }
    ⟨tagIHDR, ihdrPayload 1 1 depth ct, [0, 0, 0, 0]⟩ _ rfl
    (by simp [ihdrPayload, be32inv]) rfl]
  dsimp only
  rw [if_neg (by decide), if_pos rfl,
    if_pos (show (ihdrPayload 1 1 depth ct).length = 13 by simp [ihdrPayload, be32inv])]
  rw [readChunks_cons { header := some (parseIHDR (ihdrPayload 1 1 depth ct)), idat := [] }
    ⟨tagIDAT, [0, a, b, c], [0, 0, 0, 0]⟩ _ rfl (by simp) rfl]
  dsimp only
  rw [if_neg (by decide), if_neg (by decide), if_pos rfl]
  rw [readChunks_cons
    { header := some (parseIHDR (ihdrPayload 1 1 depth ct)), idat := [] ++ [0, a, b, c] }
    ⟨tagIEND, [], [0, 0, 0, 0]⟩ _ rfl (by simp) rfl]
  dsimp only
  rw [if_neg (by decide), if_neg (by decide), if_neg (by decide), if_pos rfl]
  have hh : parseIHDR (ihdrPayload 1 1 depth ct) =
      { width := 1, height := 1, bit_depth := depth, color_type := ct,
        compression_method := 0, filter_method := 0, interlace_method := 0 } := rfl
  rw [hh]
  have hf : apply_filters_to_data 1 1 [0, a, b, c] = some [a, b, c] := by
    simp [apply_filters_to_data, filterRows]
  simp only [List.nil_append, hf]

/-- Claim C8 as amended: `read_png` performs no bitDepth/colorType
validation at all.  For every bit depth and color type byte (16-bit
depth included) it proceeds to defilter with bytes-per-pixel fixed at 3
and returns the header fields untouched; no UnsupportedFormat failure
exists in the code. -/
theorem c8_no_format_validation (depth ct a b c : Nat) :
    read_png (fun l => some l) (oneByOneStream depth ct a b c) =
      some (1, 1, ct, depth, [a, b, c]) ∧
    read_png (fun l => some l) (oneByOneStream depth ct a b c) ≠ none := by
  have h := oneByOne_decodes depth ct a b c
  refine ⟨h, ?_⟩
  rw [h]
  simp

/-- Claim C8, counterexample to the claim as stated: a header declaring
bitDepth 16 does not fail with UnsupportedFormat; the decode proceeds
and returns a (mis-decoded) result. -/
theorem c8_bitdepth16_proceeds :
    read_png (fun l => some l) (oneByOneStream 16 2 10 20 30) =
      some (1, 1, 2, 16, [10, 20, 30]) ∧
    read_png (fun l => some l) (oneByOneStream 16 2 10 20 30) ≠ none := by
  have h := oneByOne_decodes 16 2 10 20 30
  refine ⟨h, ?_⟩
  rw [h]
  simp
